import Mathlib

/-!
Verification of `tensornetwork/contractors/opt_einsum_paths/utils.py`.

The file embeds the three functions of `utils.py` — `multi_remove`,
`get_first_nondangling` and `get_path` — over a model of the network data
structures (`Edge`, `Node`, `TensorNetwork`), which are declared in the
network modules of the repository and are modelled here from the spec.
Python exceptions are modelled by `Except String`; Python sets of edges by
`Finset Edge`; Python dicts by association lists in insertion order.
-/

/-- Modelled from the spec: an `Edge` (network components module, not part of
the analysed file).  It identifies a shared tensor index and carries a
dimension and one or two endpoints; `node2 = none` means the edge has only
one endpoint, i.e. it is dangling.  Endpoints are node ids.  Distinct edge
objects are distinguished by `id`. -/
structure Edge where
  id : Nat
  dimension : Nat
  node1 : Nat
  node2 : Option Nat
deriving DecidableEq, Repr

/-- Modelled from the spec: `Edge.is_dangling()` — true exactly when the edge
has only one endpoint (an external/output index). -/
def Edge.is_dangling (e : Edge) : Bool := e.node2.isNone

/-- Modelled from the spec: a `Node` (network components module).  It carries
an ordered collection of edges (one per tensor axis), a monotonically
increasing creation-order signature, and a variant tag distinguishing
ordinary nodes from `CopyNode` (`is_copy`). -/
structure Node where
  id : Nat
  signature : Nat
  is_copy : Bool
  edges : List Edge
deriving DecidableEq, Repr

/-- Modelled from the spec: a `TensorNetwork` (network module) is the set of
all nodes.  `nodes_set` is modelled as a list in the network's iteration
order (Python set iteration order for one fixed set object). -/
structure TensorNetwork where
  nodes_set : List Node
deriving DecidableEq, Repr

/-- Modelled from the spec: `net.get_all_edges()` — the set of all edges of
all nodes of the network. -/
def TensorNetwork.get_all_edges (net : TensorNetwork) : Finset Edge :=
  (net.nodes_set.flatMap Node.edges).toFinset

/-- Modelled from the spec: `net.get_all_nondangling()` — the set of all
non-dangling edges of the network. -/
def TensorNetwork.get_all_nondangling (net : TensorNetwork) : Finset Edge :=
  net.get_all_edges.filter (fun e => e.is_dangling = false)

/-- From `utils.py`: the `opt_einsum` algorithm signature, a function of the
per-node input edge-sets, the output edge-set and the edge-dimension table,
returning a list of index pairs. -/
def Algorithm : Type :=
  List (Finset Edge) → Finset Edge → List (Edge × Nat) → List (Nat × Nat)

/-- From `utils.py`:
`multi_remove(elems, indices) = [i for j, i in enumerate(elems) if j not in indices]`. -/
def multi_remove {α : Type} (elems : List α) (indices : List Nat) : List α :=
  (elems.enum.filter (fun ji => decide (ji.1 ∉ indices))).map Prod.snd

/-- From `utils.py`: `get_first_nondangling(node)` — iterate over the node's
edges and return the first non-dangling one, or `None` when there is none. -/
def get_first_nondangling (node : Node) : Option Edge :=
  node.edges.find? (fun e => !e.is_dangling)

/-- Assignment `m[k] = v` on a Python dict, modelled as an association list
in insertion order: an existing key keeps its position and receives the new
value, a new key is appended at the end. -/
def dictSet {κ ν : Type} [DecidableEq κ] (m : List (κ × ν)) (k : κ) (v : ν) :
    List (κ × ν) :=
  if m.any (fun p => decide (p.1 = k)) then
    m.map (fun p => if p.1 = k then (k, v) else p)
  else m ++ [(k, v)]

/-- The expression `({e.node1, e.node2} - {copy}).pop()` of `get_path`, for a
non-dangling edge `e` of the copy node with id `copyId`: `KeyError` when both
endpoints are the copy node itself (the difference is empty); otherwise the
other endpoint.  (When both endpoints differ from the copy node — an edge not
incident to it — `set.pop` is arbitrary; the model picks `node1`.) -/
def popOther (e : Edge) (copyId : Nat) : Except String Nat :=
  if e.node1 = copyId then
    match e.node2 with
    | some n2 =>
        if n2 = copyId then Except.error "KeyError: pop from an empty set"
        else Except.ok n2
    | none => Except.error "KeyError: pop from an empty set"
  else Except.ok e.node1

/-- The inner loop of `get_path`, `for e in copy.edges`.  Before this loop
the source ran `copy_to_nodes[copy] = \x7b\x7d`, which creates an empty
*dict*, not a set; hence the first non-dangling edge, after running
`edge_map[e] = edge` and computing `node`, reaches
`copy_to_nodes[copy].add(node)` and raises
`AttributeError: dict object has no attribute add`.  The statements after
that call (the `node_to_copies` updates) are unreachable, as is the rest of
the loop. -/
def normEdges (copy : Node) (rep : Option Edge)
    (edge_map : List (Edge × Option Edge)) :
    List Edge → Except String (List (Edge × Option Edge))
  | [] => Except.ok edge_map
  | e :: rest =>
    if e.is_dangling then normEdges copy rep edge_map rest
    else
      -- `edge_map[e] = edge` runs, but the exception raised just below
      -- discards the whole local state, so the updated map is never seen.
      let _em := dictSet edge_map e rep
      match popOther e copy.id with
      | Except.error msg => Except.error msg
      | Except.ok _node =>
          Except.error "AttributeError: dict object has no attribute add"

/-- The outer normaliser loop of `get_path`, `for copy, edge in
copy_nodes.items()`: record the key of `copy_to_nodes[copy] = \x7b\x7d`
(every value of `copy_to_nodes` in a completed run is that empty dict, since
any `add` on it raises), then run the inner edge loop.  Returns the final
`edge_map` together with the keys of `copy_to_nodes`. -/
def normCopies (edge_map : List (Edge × Option Edge)) (keys : List Nat) :
    List (Node × Option Edge) →
    Except String (List (Edge × Option Edge) × List Nat)
  | [] => Except.ok (edge_map, keys)
  | (copy, rep) :: rest =>
    let keys := keys ++ [copy.id]
    match normEdges copy rep edge_map copy.edges with
    | Except.error msg => Except.error msg
    | Except.ok em => normCopies em keys rest

/-- From `get_path`: the dict comprehension
`copy_nodes = \x7bnode: get_first_nondangling(node) for node in net.nodes_set
if isinstance(node, network_components.CopyNode)\x7d`, as an ordered
association list. -/
def copy_nodes_of (net : TensorNetwork) : List (Node × Option Edge) :=
  (net.nodes_set.filter (fun n => n.is_copy)).map
    (fun n => (n, get_first_nondangling n))

/-- From `get_path`:
`sorted_nodes = sorted(net.nodes_set - set(copy_nodes.keys()), key = lambda n: n.signature)`
— the ordinary (non-copy) nodes, sorted stably by creation-order signature. -/
def sorted_nodes_of (net : TensorNetwork) : List Node :=
  List.insertionSort (fun a b => a.signature ≤ b.signature)
    (net.nodes_set.filter (fun n => !n.is_copy))

/-- From `get_path`:
`output_set = net.get_all_edges() - net.get_all_nondangling()`. -/
def output_set_of (net : TensorNetwork) : Finset Edge :=
  net.get_all_edges \ net.get_all_nondangling

/-- From `get_path`:
`size_dict = \x7bedge: edge.dimension for edge in net.get_all_edges()\x7d`,
as an association list over the network's edges. -/
def size_dict_of (net : TensorNetwork) : List (Edge × Nat) :=
  (net.nodes_set.flatMap Node.edges).dedup.map (fun e => (e, e.dimension))

/-- From `utils.py`: `get_path(net, algorithm)`.  It builds `copy_nodes` and
`sorted_nodes`, runs the normaliser loop (whose maps the rest of the function
never uses, exactly as in the source, and which raises whenever any copy
node has a non-dangling edge — see `normEdges`), then builds
`input_sets = [set(node.edges) for node in sorted_nodes]` from the raw
edges, the output set and the size dict, and returns the algorithm's result
paired with `sorted_nodes`. -/
def get_path (net : TensorNetwork) (algorithm : Algorithm) :
    Except String (List (Nat × Nat) × List Node) :=
  let sorted_nodes := sorted_nodes_of net
  match normCopies [] [] (copy_nodes_of net) with
  | Except.error msg => Except.error msg
  | Except.ok _maps =>
    let input_sets := sorted_nodes.map (fun node => node.edges.toFinset)
    Except.ok
      (algorithm input_sets (output_set_of net) (size_dict_of net),
       sorted_nodes)

/-- An algorithm returning the empty path, used for concrete evaluations. -/
def trivial_algorithm : Algorithm := fun _ _ _ => []

/-- An algorithm extensionally equal to `trivial_algorithm` but syntactically
different, used to witness determinism across two invocations. -/
def null_algorithm : Algorithm := fun _ _ _ => List.replicate 0 (0, 0)

/-- Ordering instance used by `sorted_nodes_of`: comparison by signature is
total. -/
instance : IsTotal Node (fun a b => a.signature ≤ b.signature) :=
  ⟨fun a b => Nat.le_total a.signature b.signature⟩

/-- Ordering instance used by `sorted_nodes_of`: comparison by signature is
transitive. -/
instance : IsTrans Node (fun a b => a.signature ≤ b.signature) :=
  ⟨fun _ _ _ => Nat.le_trans⟩

/-- Strict comparison by signature is (vacuously) antisymmetric, which makes
a sorted order unique once signatures are distinct. -/
instance : IsAntisymm Node (fun a b => a.signature < b.signature) :=
  ⟨fun _ _ h1 h2 => absurd h2 (Nat.lt_asymm h1)⟩

/-- The claim's reading of `multi_remove`, as a recursion carrying the
current position `k`: keep, in order, exactly the elements whose position is
not listed in `indices`. -/
def removeByPosition {α : Type} (indices : List Nat) : Nat → List α → List α
  | _, [] => []
  | k, a :: l =>
    if k ∈ indices then removeByPosition indices (k + 1) l
    else a :: removeByPosition indices (k + 1) l

/-! Concrete networks used for counterexamples, failing inputs and
witnesses.  Node ids: the copy node is 0; ordinary nodes P, Q, R are 1, 2, 3. -/

/-- Edge between the copy node (id 0) and ordinary node P (id 1). -/
def eXP : Edge := ⟨10, 2, 0, some 1⟩

/-- Edge between the copy node (id 0) and ordinary node Q (id 2). -/
def eXQ : Edge := ⟨11, 2, 0, some 2⟩

/-- Edge between the copy node (id 0) and ordinary node R (id 3). -/
def eXR : Edge := ⟨12, 2, 0, some 3⟩

/-- A dangling edge on the copy node with id 5. -/
def dA : Edge := ⟨13, 2, 5, none⟩

/-- A dangling edge on the ordinary node with id 9. -/
def eW : Edge := ⟨20, 3, 9, none⟩

/-- Ordinary node P. -/
def nodeP : Node := ⟨1, 1, false, [eXP]⟩

/-- Ordinary node Q. -/
def nodeQ : Node := ⟨2, 2, false, [eXQ]⟩

/-- Ordinary node R. -/
def nodeR : Node := ⟨3, 3, false, [eXR]⟩

/-- Ordinary node W, carrying only a dangling edge. -/
def nodeW : Node := ⟨9, 4, false, [eW]⟩

/-- A copy node with only a dangling edge (zero non-dangling edges). -/
def copyA : Node := ⟨5, 7, true, [dA]⟩

/-- A 3-way hyperedge: copy node X joined to P, Q, R by three distinct
non-dangling edges (the spec's hyperedge scenario). -/
def net_hyper3 : TensorNetwork :=
  ⟨[⟨0, 0, true, [eXP, eXQ, eXR]⟩, nodeP, nodeQ, nodeR]⟩

/-- A copy node with exactly one non-dangling edge, to ordinary node P. -/
def net_copy1 : TensorNetwork := ⟨[⟨0, 0, true, [eXP]⟩, nodeP]⟩

/-- A copy node with exactly two non-dangling edges, to P and Q. -/
def net_copy2 : TensorNetwork := ⟨[⟨0, 0, true, [eXP, eXQ]⟩, nodeP, nodeQ]⟩

/-- The empty network: zero ordinary nodes, zero copy nodes. -/
def net_empty : TensorNetwork := ⟨[]⟩

/-- A copy-only network whose single copy node has only a dangling edge:
zero ordinary nodes, and the normaliser loop has nothing to raise on. -/
def net_dangling_copy : TensorNetwork := ⟨[copyA]⟩

/-- A network holding a copy node with zero non-dangling edges (`copyA`)
next to a copy node with a non-dangling edge to P. -/
def net_mixed_copies : TensorNetwork := ⟨[copyA, ⟨0, 8, true, [eXP]⟩, nodeP]⟩

/-- A network holding a copy node with zero non-dangling edges (`copyA`)
and one ordinary node; no copy node has a non-dangling edge. -/
def net_c8w : TensorNetwork := ⟨[copyA, nodeW]⟩

/-- Two ordinary nodes with distinct signatures, registered as A then B. -/
def net_ab : TensorNetwork := ⟨[⟨0, 0, false, []⟩, ⟨1, 1, false, []⟩]⟩

/-- The same two ordinary nodes, registered in the opposite order. -/
def net_ba : TensorNetwork := ⟨[⟨1, 1, false, []⟩, ⟨0, 0, false, []⟩]⟩

/-- C1.  The claim says that for a network with one CopyNode X joined to
ordinary nodes P, Q, R by three distinct non-dangling edges, `get_path`
builds the input sets of P, Q, R around the one representative edge.  On
that very network the code instead raises
`AttributeError: dict object has no attribute add` inside the normaliser
loop (the source initialised `copy_to_nodes[copy]` to an empty dict and then
calls `.add` on it), before any input set is built — and the input-set line
that is reached in copy-free networks uses the raw edges, never the
edge-identity map. -/
theorem C1_crash_on_hyperedge :
    get_path net_hyper3 trivial_algorithm =
      Except.error "AttributeError: dict object has no attribute add" := rfl

/-- C2.  The claim says a network whose CopyNode has exactly one non-dangling
edge is handled without a crash.  On such a network (`net_copy1`: one copy
node joined to P by one edge) the code raises `AttributeError` at
`copy_to_nodes[copy].add(node)` and never returns. -/
theorem C2_crash_on_single_edge_copy :
    get_path net_copy1 trivial_algorithm =
      Except.error "AttributeError: dict object has no attribute add" := rfl

/-- C4.  The claim states the completed edge-identity-map invariant.  On a
network whose copy node has two non-dangling edges the loop inserts the
first entry and then raises `AttributeError`, so the map with every incident
non-dangling edge as a key is never built and `get_path` raises instead of
returning. -/
theorem C4_crash_before_map_completion :
    get_path net_copy2 trivial_algorithm =
      Except.error "AttributeError: dict object has no attribute add" := rfl

/-- C3, counterexample.  The claim says `get_path` fails with a
`ConfigurationError` on a network with zero ordinary nodes.  On the empty
network — which has zero ordinary nodes — `get_path` raises nothing and
returns the algorithm's result on the empty input list. -/
theorem C3_returns_on_empty_network :
    get_path net_empty trivial_algorithm = Except.ok ([], []) ∧
    net_empty.nodes_set.filter (fun n => !n.is_copy) = [] := ⟨rfl, rfl⟩

/-- C5.  The output edge-set computed by `get_path`
(`net.get_all_edges() - net.get_all_nondangling()`) is exactly the set of
the network's dangling edges: it is the subset of all edges whose dangling
flag holds, so it contains every dangling edge of the network and never a
non-dangling one. -/
theorem C5_output_set_is_dangling (net : TensorNetwork) :
    output_set_of net = net.get_all_edges.filter (fun e => e.is_dangling = true)
    ∧ ∀ e : Edge,
        e ∈ output_set_of net ↔ e ∈ net.get_all_edges ∧ e.is_dangling = true := by
  have h : ∀ e : Edge,
      e ∈ output_set_of net ↔ e ∈ net.get_all_edges ∧ e.is_dangling = true := by
    intro e
    simp only [output_set_of, TensorNetwork.get_all_nondangling,
      Finset.mem_sdiff, Finset.mem_filter, not_and, Bool.not_eq_false]
    constructor
    · rintro ⟨ha, hb⟩; exact ⟨ha, hb ha⟩
    · rintro ⟨ha, hb⟩; exact ⟨ha, fun _ => hb⟩
  refine ⟨?_, h⟩
  ext e
  rw [h e, Finset.mem_filter]

/-- Splitting view of `List.find?`: a found element cuts the list into a
prefix on which the predicate is everywhere false, the element, and a rest. -/
theorem find_first_split {α : Type} {p : α → Bool} (l : List α) (a : α)
    (h : l.find? p = some a) :
    ∃ l1 l2, l = l1 ++ a :: l2 ∧ ∀ x ∈ l1, p x = false := by
  induction l with
  | nil => simp [List.find?] at h
  | cons b t ih =>
    by_cases hb : p b = true
    · rw [List.find?_cons_of_pos t hb] at h
      obtain rfl := Option.some.inj h
      exact ⟨[], t, rfl, by simp⟩
    · rw [List.find?_cons_of_neg t hb] at h
      obtain ⟨l1, l2, heq, hall⟩ := ih h
      refine ⟨b :: l1, l2, by rw [heq, List.cons_append], ?_⟩
      intro x hx
      rcases List.mem_cons.mp hx with rfl | hx'
      · simpa using hb
      · exact hall x hx'

/-- C7.  `get_first_nondangling` returns `none` exactly when every edge of
the node is dangling, and whenever it returns an edge, that edge is
non-dangling and is the first such one in the node's edge iteration order:
every edge before it is dangling. -/
theorem C7_first_nondangling_spec (node : Node) :
    (get_first_nondangling node = none ↔ ∀ e ∈ node.edges, e.is_dangling = true)
    ∧ ∀ e : Edge, get_first_nondangling node = some e →
        e.is_dangling = false ∧
        ∃ l1 l2, node.edges = l1 ++ e :: l2 ∧ ∀ x ∈ l1, x.is_dangling = true := by
  constructor
  · rw [get_first_nondangling, List.find?_eq_none]
    constructor
    · intro h e he; simpa using h e he
    · intro h e he; simp [h e he]
  · intro e he
    have he' : node.edges.find? (fun e => !e.is_dangling) = some e := he
    have hd : e.is_dangling = false := by simpa using List.find?_some he'
    refine ⟨hd, ?_⟩
    obtain ⟨l1, l2, heq, hall⟩ := find_first_split node.edges e he'
    exact ⟨l1, l2, heq, fun x hx => by simpa using hall x hx⟩

/-- C9.  `get_path` is deterministic: it is a pure function of the network,
so two invocations on an unchanged network with optimizers that agree on
every input (a deterministic optimizer invoked twice) return identical
`(path, ordered node list)` results. -/
theorem C9_get_path_deterministic (net : TensorNetwork) (alg1 alg2 : Algorithm)
    (h : ∀ i o s, alg1 i o s = alg2 i o s) :
    get_path net alg1 = get_path net alg2 := by
  have halg : alg1 = alg2 := funext fun i => funext fun o => funext fun s => h i o s
  rw [halg]

/-- Witness for C9 at a concrete network and two extensionally equal
optimizers. -/
theorem C9_witness :
    get_path net_ab trivial_algorithm = get_path net_ab null_algorithm :=
  C9_get_path_deterministic net_ab trivial_algorithm null_algorithm
    (fun _ _ _ => rfl)

/-- The inner normaliser loop leaves `edge_map` untouched and raises nothing
when every edge of the copy node is dangling: the raising branch is never
entered. -/
theorem normEdges_all_dangling (copy : Node) (rep : Option Edge)
    (em : List (Edge × Option Edge)) (es : List Edge)
    (h : ∀ e ∈ es, e.is_dangling = true) :
    normEdges copy rep em es = Except.ok em := by
  induction es with
  | nil => rfl
  | cons e t ih =>
    have he : e.is_dangling = true := h e (List.mem_cons_self e t)
    simp only [normEdges, he, if_true]
    exact ih fun x hx => h x (List.mem_cons_of_mem e hx)

/-- The outer normaliser loop succeeds when every copy node in the items list
has only dangling edges: `edge_map` stays as given and the recorded
`copy_to_nodes` keys are the copy node ids in order. -/
theorem normCopies_all_dangling (em : List (Edge × Option Edge))
    (keys : List Nat) (cs : List (Node × Option Edge))
    (h : ∀ p ∈ cs, ∀ e ∈ p.1.edges, e.is_dangling = true) :
    normCopies em keys cs = Except.ok (em, keys ++ cs.map (fun p => p.1.id)) := by
  induction cs generalizing keys with
  | nil => simp [normCopies]
  | cons c t ih =>
    obtain ⟨copy, rep⟩ := c
    have hc : ∀ e ∈ copy.edges, e.is_dangling = true :=
      h (copy, rep) (List.mem_cons_self _ _)
    simp only [normCopies]
    rw [normEdges_all_dangling copy rep em copy.edges hc]
    show normCopies em (keys ++ [copy.id]) t = _
    rw [ih (keys ++ [copy.id]) fun p hp => h p (List.mem_cons_of_mem _ hp)]
    simp

/-- C3, amended.  A network with zero ordinary nodes makes `get_path` raise
no `ConfigurationError`: provided no copy node has a non-dangling edge
(otherwise the normaliser slip raises `AttributeError`, still not a
`ConfigurationError`), the call returns normally — the algorithm applied to
the empty input list, paired with the empty node list. -/
theorem C3_no_error_without_ordinary_nodes (net : TensorNetwork)
    (alg : Algorithm)
    (hord : net.nodes_set.filter (fun n => !n.is_copy) = [])
    (hall : ∀ n ∈ net.nodes_set, ∀ e ∈ n.edges, e.is_dangling = true) :
    get_path net alg =
      Except.ok (alg [] (output_set_of net) (size_dict_of net), []) := by
  have hsorted : sorted_nodes_of net = [] := by
    rw [sorted_nodes_of, hord]; rfl
  have hcn : ∀ p ∈ copy_nodes_of net, ∀ e ∈ p.1.edges, e.is_dangling = true := by
    intro p hp e he
    rw [copy_nodes_of] at hp
    obtain ⟨n, hn, rfl⟩ := List.mem_map.mp hp
    exact hall n (List.mem_of_mem_filter hn) e he
  simp only [get_path]
  rw [normCopies_all_dangling [] [] (copy_nodes_of net) hcn]
  simp [hsorted]

/-- Witness for C3's amended statement: a copy-only network whose single
copy node carries one dangling edge. -/
theorem C3_witness :
    get_path net_dangling_copy trivial_algorithm =
      Except.ok (trivial_algorithm [] (output_set_of net_dangling_copy)
        (size_dict_of net_dangling_copy), []) :=
  C3_no_error_without_ordinary_nodes net_dangling_copy trivial_algorithm
    (by decide) (by decide)

/-- C8, counterexample.  The claim quantifies over every network containing
a copy node with zero non-dangling edges.  `net_mixed_copies` contains such
a copy node (`copyA`), yet `get_path` crashes on it, because the network
also holds a copy node with a non-dangling edge and the normaliser's
dict-for-set slip raises there. -/
theorem C8_crash_with_other_copy :
    (∃ n ∈ net_mixed_copies.nodes_set,
        n.is_copy = true ∧ ∀ e ∈ n.edges, e.is_dangling = true)
    ∧ get_path net_mixed_copies trivial_algorithm =
        Except.error "AttributeError: dict object has no attribute add" :=
  ⟨⟨copyA, by decide, by decide, by decide⟩, rfl⟩

/-- C8, amended.  A copy node with zero non-dangling edges is itself
harmless: in a network where no copy node has a non-dangling edge,
`get_path` does not crash, that copy node contributes no key to the
edge-identity map (which ends empty), its `copy_to_nodes` entry is recorded
with the empty value, and the call returns normally. -/
theorem C8_zero_nondangling_copy_safe (net : TensorNetwork) (alg : Algorithm)
    (c : Node) (hc : c ∈ net.nodes_set) (hcopy : c.is_copy = true)
    (hzero : ∀ e ∈ c.edges, e.is_dangling = true)
    (hall : ∀ n ∈ net.nodes_set, n.is_copy = true →
      ∀ e ∈ n.edges, e.is_dangling = true) :
    normCopies [] [] (copy_nodes_of net) =
      Except.ok ([], (net.nodes_set.filter (fun n => n.is_copy)).map Node.id)
    ∧ c.id ∈ (net.nodes_set.filter (fun n => n.is_copy)).map Node.id
    ∧ get_path net alg =
        Except.ok
          (alg ((sorted_nodes_of net).map (fun node => node.edges.toFinset))
            (output_set_of net) (size_dict_of net), sorted_nodes_of net) := by
  have hcn : ∀ p ∈ copy_nodes_of net, ∀ e ∈ p.1.edges, e.is_dangling = true := by
    intro p hp e he
    rw [copy_nodes_of] at hp
    obtain ⟨n, hn, rfl⟩ := List.mem_map.mp hp
    exact hall n (List.mem_of_mem_filter hn) (List.of_mem_filter hn) e he
  have hnorm := normCopies_all_dangling [] [] (copy_nodes_of net) hcn
  have hkeys : (copy_nodes_of net).map (fun p => p.1.id)
      = (net.nodes_set.filter (fun n => n.is_copy)).map Node.id := by
    rw [copy_nodes_of, List.map_map]; rfl
  refine ⟨?_, ?_, ?_⟩
  · rw [hnorm, List.nil_append, hkeys]
  · exact List.mem_map.mpr ⟨c, List.mem_filter.mpr ⟨hc, hcopy⟩, rfl⟩
  · simp only [get_path]
    rw [hnorm]

/-- Witness for C8's amended statement: `copyA` (zero non-dangling edges)
next to one ordinary node. -/
theorem C8_witness :
    normCopies [] [] (copy_nodes_of net_c8w) =
      Except.ok ([], (net_c8w.nodes_set.filter (fun n => n.is_copy)).map Node.id)
    ∧ copyA.id ∈ (net_c8w.nodes_set.filter (fun n => n.is_copy)).map Node.id
    ∧ get_path net_c8w trivial_algorithm =
        Except.ok
          (trivial_algorithm
            ((sorted_nodes_of net_c8w).map (fun node => node.edges.toFinset))
            (output_set_of net_c8w) (size_dict_of net_c8w),
           sorted_nodes_of net_c8w) :=
  C8_zero_nondangling_copy_safe net_c8w trivial_algorithm copyA
    (by decide) (by decide) (by decide) (by decide)

/-- C6.  The ordered node list of `get_path` is the ordinary (non-copy)
nodes sorted ascending by creation-order signature; with signatures unique
(as the spec assumes) the order is a function only of the signatures, so
permuting the registration order of the nodes leaves the list unchanged;
and it is the list `get_path` returns whenever it returns. -/
theorem C6_sorted_nodes_signature_order (net net' : TensorNetwork)
    (hperm : net.nodes_set.Perm net'.nodes_set)
    (hsig : (net.nodes_set.map Node.signature).Nodup) :
    sorted_nodes_of net = sorted_nodes_of net'
    ∧ List.Sorted (fun a b => a.signature ≤ b.signature) (sorted_nodes_of net)
    ∧ (sorted_nodes_of net).Perm (net.nodes_set.filter (fun n => !n.is_copy))
    ∧ ∀ alg path nodes, get_path net alg = Except.ok (path, nodes) →
        nodes = sorted_nodes_of net := by
  have hs1 : List.Sorted (fun a b : Node => a.signature ≤ b.signature)
      (sorted_nodes_of net) := List.sorted_insertionSort _ _
  have hs2 : List.Sorted (fun a b : Node => a.signature ≤ b.signature)
      (sorted_nodes_of net') := List.sorted_insertionSort _ _
  have hp1 : (sorted_nodes_of net).Perm
      (net.nodes_set.filter (fun n => !n.is_copy)) := List.perm_insertionSort _ _
  have hp2 : (sorted_nodes_of net').Perm
      (net'.nodes_set.filter (fun n => !n.is_copy)) := List.perm_insertionSort _ _
  have hchain : (sorted_nodes_of net).Perm (sorted_nodes_of net') :=
    hp1.trans ((hperm.filter _).trans hp2.symm)
  have hnodup1 : ((sorted_nodes_of net).map Node.signature).Nodup := by
    have hf : ((net.nodes_set.filter (fun n => !n.is_copy)).map Node.signature).Nodup :=
      List.Nodup.sublist ((List.filter_sublist _).map Node.signature) hsig
    exact ((hp1.map Node.signature).nodup_iff).mpr hf
  have hnodup2 : ((sorted_nodes_of net').map Node.signature).Nodup :=
    ((hchain.map Node.signature).nodup_iff).mp hnodup1
  have hlt1 : List.Pairwise (fun a b : Node => a.signature < b.signature)
      (sorted_nodes_of net) :=
    (List.Pairwise.and hs1 (List.pairwise_map.mp hnodup1)).imp
      fun h => lt_of_le_of_ne h.1 h.2
  have hlt2 : List.Pairwise (fun a b : Node => a.signature < b.signature)
      (sorted_nodes_of net') :=
    (List.Pairwise.and hs2 (List.pairwise_map.mp hnodup2)).imp
      fun h => lt_of_le_of_ne h.1 h.2
  refine ⟨List.eq_of_perm_of_sorted hchain hlt1 hlt2, hs1, hp1, ?_⟩
  intro alg path nodes h
  simp only [get_path] at h
  cases hnc : normCopies [] [] (copy_nodes_of net) with
  | error msg => rw [hnc] at h; exact Except.noConfusion h
  | ok m =>
    rw [hnc] at h
    simp only [Except.ok.injEq, Prod.mk.injEq] at h
    exact h.2.symm

/-- Witness for C6: the same two ordinary nodes registered in both orders
yield the same sorted node list. -/
theorem C6_witness :
    sorted_nodes_of net_ab = sorted_nodes_of net_ba
    ∧ List.Sorted (fun a b => a.signature ≤ b.signature) (sorted_nodes_of net_ab)
    ∧ (sorted_nodes_of net_ab).Perm (net_ab.nodes_set.filter (fun n => !n.is_copy))
    ∧ ∀ alg path nodes, get_path net_ab alg = Except.ok (path, nodes) →
        nodes = sorted_nodes_of net_ab :=
  C6_sorted_nodes_signature_order net_ab net_ba (by decide) (by decide)

/-- The comprehension over `enumerate` starting at position `k` computes the
positional recursion `removeByPosition` from `k`. -/
theorem enum_filter_eq_removeByPosition {α : Type} (indices : List Nat) :
    ∀ (l : List α) (k : Nat),
      ((l.enumFrom k).filter (fun ji => decide (ji.1 ∉ indices))).map Prod.snd
        = removeByPosition indices k l := by
  intro l
  induction l with
  | nil => intro k; rfl
  | cons a t ih =>
    intro k
    by_cases hk : k ∈ indices
    · simp [List.enumFrom, removeByPosition, hk]
      simpa using ih (k + 1)
    · simp [List.enumFrom, removeByPosition, hk]
      simpa using ih (k + 1)

/-- Positions at or beyond `m` never occur while walking a list that ends
before `m`, so removing them from the index list changes nothing. -/
theorem removeByPosition_filter_lt {α : Type} (indices : List Nat) (m : Nat) :
    ∀ (l : List α) (k : Nat), k + l.length ≤ m →
      removeByPosition (indices.filter (fun j => decide (j < m))) k l
        = removeByPosition indices k l := by
  intro l
  induction l with
  | nil => intro k _; rfl
  | cons a t ih =>
    intro k hk
    rw [List.length_cons] at hk
    have hklt : k < m := by omega
    have hnext : k + 1 + t.length ≤ m := by omega
    have hmem : (k ∈ indices.filter (fun j => decide (j < m))) ↔ k ∈ indices := by
      simp [List.mem_filter, hklt]
    simp only [removeByPosition]
    by_cases hkin : k ∈ indices
    · rw [if_pos (hmem.mpr hkin), if_pos hkin, ih (k + 1) hnext]
    · rw [if_neg (fun hx => hkin (hmem.mp hx)), if_neg hkin, ih (k + 1) hnext]

/-- C10.  `multi_remove elems indices` keeps, in their original relative
order, exactly the elements of `elems` whose position is not in `indices`
(the positional recursion `removeByPosition`); duplicate or out-of-range
positions in `indices` have no further effect; and the result is a sublist
of `elems` (the input itself is a value the function never mutates). -/
theorem C10_multi_remove_spec {α : Type} (elems : List α) (indices : List Nat) :
    multi_remove elems indices = removeByPosition indices 0 elems
    ∧ multi_remove elems indices.dedup = multi_remove elems indices
    ∧ multi_remove elems (indices.filter (fun j => decide (j < elems.length)))
        = multi_remove elems indices
    ∧ (multi_remove elems indices).Sublist elems := by
  refine ⟨?_, ?_, ?_, ?_⟩
  · exact enum_filter_eq_removeByPosition indices elems 0
  · unfold multi_remove
    congr 1
    apply List.filter_congr
    intro x _
    simp only [decide_eq_decide]
    simp [List.mem_dedup]
  · exact (enum_filter_eq_removeByPosition _ elems 0).trans
      ((removeByPosition_filter_lt indices elems.length elems 0 (by omega)).trans
        (enum_filter_eq_removeByPosition indices elems 0).symm)
  · have h : ((elems.enum.filter (fun ji => decide (ji.1 ∉ indices))).map
        Prod.snd).Sublist (elems.enum.map Prod.snd) :=
      List.Sublist.map Prod.snd (List.filter_sublist elems.enum)
    rw [List.enum_map_snd] at h
    exact h
